import Mathlib

/-!
Verification development for the DWD open-data client (`dwd.py`).

The Python module is shallow-embedded here:
  - strings are `List Char`;
  - the network is an explicit function from request URL to response
    (anchor hrefs for listing pages, `(status, body)` for file downloads);
  - the filesystem is an explicit association list from path to content;
  - Python exceptions become `Except` error values.

Dictionaries (`defaultdict(dict)`, the filesystem) are association lists
with in-place update, matching Python dict assignment semantics (an
existing key keeps its position, a new key is appended).
-/

namespace Dwd

/-- Strings of the embedding: lists of characters. -/
abbrev Str := List Char

/-- `BASE_URL` from the source. -/
def BASE_URL : Str := "https://opendata.dwd.de/climate_environment/CDC/".toList

/-- The URL assigned to `url` inside the loop of `_build_kl_file_index`
(line 44 of the source): the historical listing directory.  Note that the
source assigns this SAME url on every iteration of the category loop. -/
def histUrl : Str := BASE_URL ++ "observations_germany/climate/daily/kl/historical/".toList

/-- The recent listing directory URL (the directory the docstring of
`_build_kl_file_index` says is also indexed; the code never fetches it). -/
def recentUrl : Str := BASE_URL ++ "observations_germany/climate/daily/kl/recent/".toList

/-- The two archive categories, the keys `'historical'` and `'recent'`. -/
inductive Cat
  | historical
  | recent
deriving DecidableEq, Repr

/-- The per-station dictionary: category to download URL. -/
abbrev Inner := List (Cat × Str)

/-- The station index: station id (as `int`) to per-station dictionary. -/
abbrev Index := List (Nat × Inner)

/-- Errors `_build_kl_file_index` can raise: `matchNone` models the
`AttributeError` from calling `.groups()` on a failed `re.match` (the link
filter matched by `re.search`, the extraction uses `re.match`), and
`unpackMismatch` models the `ValueError` from unpacking a group tuple of
the wrong arity into `station_id, von_date, bis_date`. -/
inductive BuildErr
  | matchNone
  | unpackMismatch
deriving DecidableEq, Repr

/-- Match a literal piece of a regex pattern at the front of a string,
returning the rest. -/
def stripLit : Str → Str → Option Str
  | [], s => some s
  | _ :: _, [] => none
  | l :: lt, c :: ct => if c = l then stripLit lt ct else none

/-- Match exactly `n` digits (`\d{n}`), returning the digits and the rest. -/
def takeDigits : Nat → Str → Option (Str × Str)
  | 0, s => some ([], s)
  | _ + 1, [] => none
  | n + 1, c :: rest =>
    if c.isDigit then (takeDigits n rest).map (fun p => (c :: p.1, p.2)) else none

def litKL : Str := "tageswerte_KL_".toList
def litUnd : Str := "_".toList
def litHist : Str := "_hist".toList
def litAkt : Str := "_akt".toList
def litZip : Str := "zip".toList

/-- `re.match` of `hist_re = tageswerte_KL_(\d{5})_(\d{8})_(\d{8})_hist.zip`
at the start of a string (trailing characters allowed, as with `re.match`);
the unescaped dot matches any character but a newline.  Returns the three
captured groups. -/
def matchHist (s : Str) : Option (Str × Str × Str) := do
  let s ← stripLit litKL s
  let (g1, s) ← takeDigits 5 s
  let s ← stripLit litUnd s
  let (g2, s) ← takeDigits 8 s
  let s ← stripLit litUnd s
  let (g3, s) ← takeDigits 8 s
  let s ← stripLit litHist s
  match s with
  | [] => none
  | c :: s =>
    if c = '\n' then none else (stripLit litZip s).map (fun _ => (g1, g2, g3))

/-- `re.match` of `akt_re = tageswerte_KL_(\d{5})_akt.zip` at the start of a
string; returns the single captured group. -/
def matchAkt (s : Str) : Option Str := do
  let s ← stripLit litKL s
  let (g1, s) ← takeDigits 5 s
  let s ← stripLit litAkt s
  match s with
  | [] => none
  | c :: s =>
    if c = '\n' then none else (stripLit litZip s).map (fun _ => g1)

/-- The `m.groups()` tuple of the category's regex, as a list (three groups
for historical, one for recent), from a match at the start of the string. -/
def matchGroups : Cat → Str → Option (List Str)
  | .historical, s => (matchHist s).map (fun g => [g.1, g.2.1, g.2.2])
  | .recent, s => (matchAkt s).map (fun g => [g])

/-- `re.search`: the pattern matches at some position of the string.  Both
regexes here are of fixed shape, so existence of a match of some suffix
coincides with `re.search` succeeding. -/
def searchSome {α : Type} (m : Str → Option α) : Str → Bool
  | [] => (m []).isSome
  | c :: rest => (m (c :: rest)).isSome || searchSome m rest

/-- The filter `soup.find_all('a', href=r)` applies to each href: the HTML
library matches a regex-valued attribute filter with `re.search`. -/
def searchOf (d : Cat) : Str → Bool := searchSome (matchGroups d)

/-- Python `int` on a string of digits. -/
def digitsToNat (s : Str) : Nat := s.foldl (fun n c => 10 * n + (c.toNat - 48)) 0

/-- Python dict assignment `inner[d] = u`: replace in place or append. -/
def setInner : Inner → Cat → Str → Inner
  | [], d, u => [(d, u)]
  | (d', u') :: rest, d, u =>
    if d' = d then (d, u) :: rest else (d', u') :: setInner rest d u

/-- `index[k][d] = u` on a `defaultdict(dict)`: update the station's inner
dict in place, creating the station entry if absent. -/
def setIndex : Index → Nat → Cat → Str → Index
  | [], k, d, u => [(k, [(d, u)])]
  | (k', inner) :: rest, k, d, u =>
    if k' = k then (k, setInner inner d u) :: rest else (k', inner) :: setIndex rest k d u

/-- Dictionary lookup `index[k]` / membership `k in index`. -/
def lookupIndex : Index → Nat → Option Inner
  | [], _ => none
  | (k', inner) :: rest, k => if k' = k then some inner else lookupIndex rest k

/-- The body of the link loop of `_build_kl_file_index`:
`m = r.match(href); station_id, von_date, bis_date = m.groups();
index[int(station_id)][d] = url + href`.  A failed match makes `m.groups()`
raise (`matchNone`); a group tuple that is not a triple makes the unpacking
raise (`unpackMismatch`). -/
def processLink (d : Cat) (url : Str) (idx : Index) (href : Str) : Except BuildErr Index :=
  match matchGroups d href with
  | none => .error .matchNone
  | some gs =>
    match gs with
    | [station_id, _von_date, _bis_date] =>
      .ok (setIndex idx (digitsToNat station_id) d (url ++ href))
    | _ => .error .unpackMismatch

/-- The `for l in links` loop. -/
def foldLinks (d : Cat) (url : Str) : Index → List Str → Except BuildErr Index
  | idx, [] => .ok idx
  | idx, href :: rest =>
    match processLink d url idx href with
    | .error e => .error e
    | .ok idx' => foldLinks d url idx' rest

/-- One iteration of the category loop of `_build_kl_file_index`.  The
source re-assigns `url` to the HISTORICAL listing URL on every iteration
(line 44), fetches that page, and filters its anchors by the category's
regex. -/
def processCat (fetch : Str → List Str) (idx : Index) (d : Cat) : Except BuildErr Index :=
  let url := histUrl
  let links := (fetch url).filter (searchOf d)
  foldLinks d url idx links

/-- The `for d, r in zip(...)` loop over the two categories. -/
def foldCats (fetch : Str → List Str) : Index → List Cat → Except BuildErr Index
  | idx, [] => .ok idx
  | idx, d :: rest =>
    match processCat fetch idx d with
    | .error e => .error e
    | .ok idx' => foldCats fetch idx' rest

/-- `_build_kl_file_index` (uncached body), over an explicit network
`fetch` mapping a listing URL to the hrefs of the anchors on that page.
The initial `url`/`soup` assignments of lines 34-35 are dead (overwritten
before use) and have no effect on the result. -/
def build_kl_file_index (fetch : Str → List Str) : Except BuildErr Index :=
  foldCats fetch [] [.historical, .recent]

/-- The `lru_cache(maxsize=1)` wrapper around `_build_kl_file_index`: the
cache holds a previously returned index (exceptions are not cached).
Returns the call's result together with the cache state after the call. -/
def build_cached (cache : Option Index) (fetch : Str → List Str) :
    Except BuildErr (Index × Option Index) :=
  match cache with
  | some idx => .ok (idx, some idx)
  | none =>
    match build_kl_file_index fetch with
    | .ok idx => .ok (idx, some idx)
    | .error e => .error e

/-- The one historical link of the round-trip mock: station 00011,
date range 19500101 to 20181231. -/
def histHref11 : Str := "tageswerte_KL_00011_19500101_20181231_hist.zip".toList

/-- A recent-pattern link for station 00044. -/
def aktHref44 : Str := "tageswerte_KL_00044_akt.zip".toList

/-! ## Downloads and the filesystem -/

/-- Raw file contents. -/
abbrev Bytes := List Char

/-- The filesystem: an association list from absolute path to content. -/
abbrev FS := List (Str × Bytes)

/-- Errors of the download and parse functions: `downloadFailed` is the
`HTTPError` of `raise_for_status`, `stationNotFound` the `KeyError` of
`download_station_kl`, `noDataFile` the `StopIteration` of the member
search in `read_dwd_kl_file`, `emptyData` and `missingColumn` the errors
of `read_csv` on an empty file and on a column name that is absent. -/
inductive DwdErr
  | downloadFailed
  | stationNotFound
  | noDataFile
  | emptyData
  | missingColumn
deriving DecidableEq, Repr

/-- `open(path, 'wb')` followed by a full write: create or truncate. -/
def fsWrite : FS → Str → Bytes → FS
  | [], p, b => [(p, b)]
  | (q, c) :: rest, p, b =>
    if q = p then (p, b) :: rest else (q, c) :: fsWrite rest p b

/-- Read a file's content, `none` when the path does not exist. -/
def fsRead : FS → Str → Option Bytes
  | [], _ => none
  | (q, c) :: rest, p => if q = p then some c else fsRead rest p

/-- `os.path.basename`: everything after the last slash. -/
def basename (s : Str) : Str := (s.reverse.takeWhile (fun c => c ≠ '/')).reverse

/-- `os.path.join` for the shapes used here (the second component is a
basename, hence relative and slash-free). -/
def pathJoin (a b : Str) : Str :=
  if a = [] then b
  else if a.getLast? = some '/' then a ++ b
  else a ++ '/' :: b

/-- `download_file(url, outfile)` over an explicit network
`http : url to (status code, body)` and filesystem.  `raise_for_status`
raises exactly for status codes 400 to 599; otherwise the whole body is
written to `outfile`.  Returns the outcome and the filesystem after the
call. -/
def download_file (http : Str → Nat × Bytes) (url outfile : Str) (fs : FS) :
    Except DwdErr Unit × FS :=
  let st := (http url).1
  if 400 ≤ st ∧ st < 600 then (.error .downloadFailed, fs)
  else (.ok (), fsWrite fs outfile (http url).2)

/-- The `for d, url in index[station_id].items()` loop of
`download_station_kl`: download each URL to the output directory under its
basename, collecting the written paths. -/
def dl_loop (http : Str → Nat × Bytes) (outdir : Str) :
    FS → List (Cat × Str) → Except DwdErr (List Str) × FS
  | fs, [] => (.ok [], fs)
  | fs, (_, url) :: rest =>
    match download_file http url (pathJoin outdir (basename url)) fs with
    | (.error e, fs') => (.error e, fs')
    | (.ok _, fs') =>
      match dl_loop http outdir fs' rest with
      | (.ok files, fs'') => (.ok (pathJoin outdir (basename url) :: files), fs'')
      | (.error e, fs'') => (.error e, fs'')

/-- `download_station_kl(station_id, outdir)`, over an already-built index
(the memoized `_build_kl_file_index()` result), an explicit network and
filesystem; `outdir` is the already-absolute output directory
(`os.makedirs` only creates directories and writes no file). -/
def download_station_kl (index : Index) (http : Str → Nat × Bytes)
    (station_id : Nat) (outdir : Str) (fs : FS) : Except DwdErr (List Str) × FS :=
  match lookupIndex index station_id with
  | none => (.error .stationNotFound, fs)
  | some inner => dl_loop http outdir fs inner

/-- The flattened work list of `download_all_kl_files`:
`[url for station in index.values() for url in station.values()]`. -/
def flatten_urls (index : Index) : List Str :=
  index.flatMap (fun e => e.2.map (fun p => p.2))

/-- The work loop of `download_all_kl_files` with `n_jobs=1`: a thread
pool of width one processes the fixed work list one item at a time, in
order; each item is one `download_file` call followed by one `bar.update(1)`.
Returns the outcome, the number of download calls made, the number of
progress updates reported, and the filesystem. -/
def bulk_loop (http : Str → Nat × Bytes) (outdir : Str) :
    FS → Nat → Nat → List Str → Except DwdErr Unit × Nat × Nat × FS
  | fs, calls, prog, [] => (.ok (), calls, prog, fs)
  | fs, calls, prog, u :: rest =>
    match download_file http u (pathJoin outdir (basename u)) fs with
    | (.error e, fs') => (.error e, calls + 1, prog, fs')
    | (.ok _, fs') => bulk_loop http outdir fs' (calls + 1) (prog + 1) rest

/-- `download_all_kl_files(outdir, n_jobs=1)` over an already-built index,
explicit network and filesystem. -/
def download_all_kl_files (index : Index) (http : Str → Nat × Bytes)
    (outdir : Str) (fs : FS) : Except DwdErr Unit × Nat × Nat × FS :=
  bulk_loop http outdir fs 0 0 (flatten_urls index)

/-! ## The record parser `read_dwd_kl_file` -/

/-- A member of a ZIP archive: name and text content. -/
structure ZipEntry where
  name : Str
  content : Str
deriving DecidableEq, Repr

/-- A parsed cell: missing (`NaN`/`NaT`), a raw text value, or the parsed
date column value (kept as its numeric `yyyymmdd` reading). -/
inductive Cell
  | na
  | str (s : Str)
  | date (n : Nat)
deriving DecidableEq, Repr

/-- The parsed table: column names and rows of cells. -/
structure Table where
  header : List Str
  rows : List (List Cell)
deriving DecidableEq, Repr

/-- Split a string at every occurrence of a separator character. -/
def splitOnChar (sep : Char) : Str → List Str
  | [] => [[]]
  | c :: rest =>
    let r := splitOnChar sep rest
    if c = sep then [] :: r
    else
      match r with
      | [] => [[c]]
      | h :: t => (c :: h) :: t

/-- The character class `\s`. -/
def isSpaceChar (c : Char) : Bool :=
  c = ' ' || c = '\t' || c = '\n' || c = '\r' || c = '\x0b' || c = '\x0c'

/-- `re.split` by the separator regex `;\s*` of `read_csv`: split at each
semicolon and consume the whitespace that follows it. -/
def splitSemi (line : Str) : List Str :=
  match splitOnChar ';' line with
  | [] => []
  | f :: rest => f :: rest.map (fun s => s.dropWhile isSpaceChar)

def litNa : Str := "-999".toList
def litNaFloat : Str := "-999.0".toList

/-- The textual forms `na_values=[-999]` makes `read_csv` treat as
missing. -/
def NA_VALUES : List Str := [litNa, litNaFloat]

/-- Parse one non-date cell: the sentinel becomes missing, anything else
keeps its text. -/
def toCell (s : Str) : Cell := if s ∈ NA_VALUES then .na else .str s

/-- Parse one cell of the `parse_dates` column `MESS_DATUM`: the sentinel
becomes missing, anything else is read as a compact numeric date. -/
def toDateCell (s : Str) : Cell := if s ∈ NA_VALUES then .na else .date (digitsToNat s)

/-- Index of a column name in the header. -/
def findColIdx (target : Str) : List Str → Option Nat
  | [] => none
  | h :: t => if h = target then some 0 else (findColIdx target t).map (fun i => i + 1)

/-- Parse the fields of one data line, `i` being the position of the first
field; the field at the date column's position goes through the date
parser, all others through the plain cell parser. -/
def cellsOfFields (dateIdx : Nat) : Nat → List Str → List Cell
  | _, [] => []
  | i, s :: rest =>
    (if i = dateIdx then toDateCell s else toCell s) :: cellsOfFields dateIdx (i + 1) rest

/-- Remove the element at a position (`DataFrame.drop` of one column). -/
def removeIdx {α : Type} : List α → Nat → List α
  | [], _ => []
  | _ :: t, 0 => t
  | h :: t, n + 1 => h :: removeIdx t n

def litProdukt : Str := "produkt_".toList
def litMessDatum : Str := "MESS_DATUM".toList
def litEor : Str := "eor".toList

/-- `read_dwd_kl_file` over an explicit archive (the list of member files
of the ZIP, in order).  `next(filter(...))` on no `produkt_`-prefixed
member raises (`noDataFile`); `read_csv` parses the member as
semicolon-separated text with a header row, normalizes `na_values`,
parses the `MESS_DATUM` column as dates (raising when the column is
absent), and the trailing `eor` marker column is dropped (raising when
absent).  Blank lines are skipped, as `read_csv` does. -/
def read_dwd_kl_file (archive : List ZipEntry) : Except DwdErr Table :=
  match archive.find? (fun e => litProdukt.isPrefixOf e.name) with
  | none => .error .noDataFile
  | some entry =>
    match (splitOnChar '\n' entry.content).filter (fun l => l ≠ []) with
    | [] => .error .emptyData
    | hdrLine :: dataLines =>
      match findColIdx litMessDatum (splitSemi hdrLine) with
      | none => .error .missingColumn
      | some di =>
        match findColIdx litEor (splitSemi hdrLine) with
        | none => .error .missingColumn
        | some j =>
          .ok ⟨removeIdx (splitSemi hdrLine) j,
               (dataLines.map (fun l => cellsOfFields di 0 (splitSemi l))).map
                 (fun r => removeIdx r j)⟩

/-! ## Concrete fixtures -/

/-- An index whose every per-station entry carries the historical
category only. -/
def onlyHist (idx : Index) : Prop :=
  ∀ e ∈ idx, ∀ p ∈ e.2, p.1 = Cat.historical

/-- Listing pages as the spec describes them: the historical directory
serves one historical link, the recent directory one recent link. -/
def c1Fetch : Str → List Str := fun u =>
  if u = recentUrl then [aktHref44]
  else if u = histUrl then [histHref11]
  else []

/-- The index the builder produces on `c1Fetch`. -/
def c1Idx : Index := [(11, [(Cat.historical, histUrl ++ histHref11)])]

/-- A href that contains the historical pattern away from its start. -/
def weirdHref : Str := 'x' :: histHref11

/-- A page with one anchor matching the historical pattern only at a
nonzero offset and one anchor matching the recent pattern. -/
def c2page : List Str := [weirdHref, aktHref44]

def c2Fetch : Str → List Str := fun _ => c2page

/-- A mocked network serving every URL with status 200. -/
def http200 : Str → Nat × Bytes := fun _ => (200, "payload".toList)

/-- A mocked network serving every URL with status 404. -/
def http404 : Str → Nat × Bytes := fun _ => (404, [])

/-- A concrete output directory. -/
def outDirW : Str := "/data/kl".toList

/-- A station index holding both categories for station 11. -/
def idx9 : Index :=
  [(11, [(Cat.historical, histUrl ++ histHref11), (Cat.recent, recentUrl ++ aktHref44)])]

/-- The per-station dictionary of station 11 in `idx9`. -/
def inner9 : Inner :=
  [(Cat.historical, histUrl ++ histHref11), (Cat.recent, recentUrl ++ aktHref44)]

/-- An archive with no `produkt_`-prefixed member. -/
def arch6 : List ZipEntry := [⟨"Metadaten_Geographie.txt".toList, "x".toList⟩]

/-- An archive whose data member holds a `-999` in the date column and in
a measurement column. -/
def arch7 : List ZipEntry :=
  [⟨"Metadaten_Geographie.txt".toList, "x".toList⟩,
   ⟨"produkt_klima_tag.txt".toList,
    "MESS_DATUM;RSK;eor\n-999;  -999;eor\n18910101;  0.5;eor\n".toList⟩]

/-- The table parsed from `arch7`. -/
def t7 : Table :=
  ⟨[litMessDatum, "RSK".toList],
   [[Cell.na, Cell.na], [Cell.date 18910101, Cell.str ("0.5".toList)]]⟩

/-! ## Lemmas about the index builder -/

theorem mem_setInner {inner : Inner} {d : Cat} {u : Str} {p : Cat × Str}
    (hp : p ∈ setInner inner d u) : p ∈ inner ∨ p.1 = d := by
  induction inner with
  | nil =>
    simp only [setInner, List.mem_singleton] at hp
    subst hp; exact Or.inr rfl
  | cons head tail ih =>
    obtain ⟨d', u'⟩ := head
    by_cases hd : d' = d
    · simp only [setInner, if_pos hd, List.mem_cons] at hp
      rcases hp with hp | hp
      · subst hp; exact Or.inr rfl
      · exact Or.inl (List.mem_cons_of_mem _ hp)
    · simp only [setInner, if_neg hd, List.mem_cons] at hp
      rcases hp with hp | hp
      · exact Or.inl (by simp [hp])
      · rcases ih hp with h | h
        · exact Or.inl (List.mem_cons_of_mem _ h)
        · exact Or.inr h

theorem mem_setIndex {idx : Index} {k : Nat} {d : Cat} {u : Str} {e : Nat × Inner}
    (he : e ∈ setIndex idx k d u) :
    ∀ p ∈ e.2, (∃ e' ∈ idx, p ∈ e'.2) ∨ p.1 = d := by
  induction idx with
  | nil =>
    simp only [setIndex, List.mem_singleton] at he
    subst he
    intro p hp
    simp only [List.mem_singleton] at hp
    subst hp; exact Or.inr rfl
  | cons head tail ih =>
    obtain ⟨k', inner⟩ := head
    by_cases hk : k' = k
    · simp only [setIndex, if_pos hk, List.mem_cons] at he
      rcases he with he | he
      · subst he
        intro p hp
        rcases mem_setInner hp with h | h
        · exact Or.inl ⟨(k', inner), by simp, h⟩
        · exact Or.inr h
      · intro p hp
        exact Or.inl ⟨e, List.mem_cons_of_mem _ he, hp⟩
    · simp only [setIndex, if_neg hk, List.mem_cons] at he
      rcases he with he | he
      · subst he
        intro p hp
        exact Or.inl ⟨(k', inner), by simp, hp⟩
      · intro p hp
        rcases ih he p hp with ⟨e', he', hp'⟩ | h
        · exact Or.inl ⟨e', List.mem_cons_of_mem _ he', hp'⟩
        · exact Or.inr h

theorem onlyHist_setIndex {idx : Index} {k : Nat} {u : Str} (h : onlyHist idx) :
    onlyHist (setIndex idx k Cat.historical u) := by
  intro e he p hp
  rcases mem_setIndex he p hp with ⟨e', he', hp'⟩ | hh
  · exact h e' he' p hp'
  · exact hh

theorem matchGroups_hist (s : Str) :
    matchGroups Cat.historical s = (matchHist s).map (fun g => [g.1, g.2.1, g.2.2]) := rfl

theorem matchGroups_recent (s : Str) :
    matchGroups Cat.recent s = (matchAkt s).map (fun g => [g]) := rfl

theorem hist_groups_shape {href : Str} {gs : List Str}
    (h : matchGroups Cat.historical href = some gs) : ∃ a b c, gs = [a, b, c] := by
  rw [matchGroups_hist] at h
  cases hm : matchHist href with
  | none => rw [hm] at h; simp at h
  | some g =>
    rw [hm] at h
    simp only [Option.map_some', Option.some.injEq] at h
    exact ⟨g.1, g.2.1, g.2.2, h.symm⟩

theorem processLink_hist_ok {url : Str} {idx : Index} {href : Str} {idx' : Index}
    (h : processLink Cat.historical url idx href = .ok idx') (hOH : onlyHist idx) :
    onlyHist idx' := by
  unfold processLink at h
  cases hm : matchGroups Cat.historical href with
  | none => rw [hm] at h; exact absurd h (by simp)
  | some gs =>
    rw [hm] at h
    obtain ⟨a, b, c, rfl⟩ := hist_groups_shape hm
    simp only [Except.ok.injEq] at h
    subst h
    exact onlyHist_setIndex hOH

theorem processLink_hist_isSome (url : Str) (idx : Index) {href : Str}
    (h : (matchGroups Cat.historical href).isSome) :
    ∃ idx', processLink Cat.historical url idx href = .ok idx' := by
  obtain ⟨gs, hgs⟩ := Option.isSome_iff_exists.mp h
  obtain ⟨a, b, c, rfl⟩ := hist_groups_shape hgs
  exact ⟨_, by unfold processLink; rw [hgs]⟩

theorem processLink_recent (url : Str) (idx : Index) (href : Str) :
    processLink Cat.recent url idx href = .error .matchNone ∨
    processLink Cat.recent url idx href = .error .unpackMismatch := by
  unfold processLink
  rw [matchGroups_recent]
  cases matchAkt href <;> simp

theorem processLink_recent_isSome (url : Str) (idx : Index) {href : Str}
    (h : (matchGroups Cat.recent href).isSome) :
    processLink Cat.recent url idx href = .error .unpackMismatch := by
  obtain ⟨gs, hgs⟩ := Option.isSome_iff_exists.mp h
  unfold processLink
  rw [hgs]
  rw [matchGroups_recent] at hgs
  cases hm : matchAkt href with
  | none => rw [hm] at hgs; simp at hgs
  | some g =>
    rw [hm] at hgs
    simp only [Option.map_some', Option.some.injEq] at hgs
    subst hgs
    rfl

theorem foldLinks_hist_onlyHist (url : Str) :
    ∀ {links : List Str} {idx idx' : Index},
      foldLinks Cat.historical url idx links = .ok idx' → onlyHist idx → onlyHist idx' := by
  intro links
  induction links with
  | nil =>
    intro idx idx' h hOH
    unfold foldLinks at h
    simp only [Except.ok.injEq] at h
    subst h; exact hOH
  | cons head tail ih =>
    intro idx idx' h hOH
    unfold foldLinks at h
    cases hp : processLink Cat.historical url idx head with
    | error e => rw [hp] at h; exact absurd h (by simp)
    | ok idx1 =>
      rw [hp] at h
      exact ih h (processLink_hist_ok hp hOH)

theorem foldLinks_hist_total (url : Str) :
    ∀ {links : List Str} (idx : Index),
      (∀ h ∈ links, (matchGroups Cat.historical h).isSome) →
      ∃ idx', foldLinks Cat.historical url idx links = .ok idx' := by
  intro links
  induction links with
  | nil => exact fun idx _ => ⟨idx, rfl⟩
  | cons head tail ih =>
    intro idx hall
    obtain ⟨idx1, h1⟩ := processLink_hist_isSome url idx (hall head (by simp))
    obtain ⟨idx', h'⟩ := ih idx1 (fun x hx => hall x (List.mem_cons_of_mem _ hx))
    refine ⟨idx', ?_⟩
    unfold foldLinks
    rw [h1]
    exact h'

theorem foldLinks_recent_cons (url : Str) (idx : Index) (href : Str) (rest : List Str) :
    ∃ e, foldLinks Cat.recent url idx (href :: rest) = .error e := by
  unfold foldLinks
  rcases processLink_recent url idx href with h | h <;>
    rw [h] <;> exact ⟨_, rfl⟩

theorem foldLinks_nil (d : Cat) (url : Str) (idx : Index) :
    foldLinks d url idx [] = .ok idx := rfl

theorem foldLinks_cons (d : Cat) (url : Str) (idx : Index) (href : Str) (rest : List Str) :
    foldLinks d url idx (href :: rest) =
      match processLink d url idx href with
      | .error e => .error e
      | .ok idx' => foldLinks d url idx' rest := rfl

theorem processCat_def (fetch : Str → List Str) (idx : Index) (d : Cat) :
    processCat fetch idx d =
      foldLinks d histUrl idx ((fetch histUrl).filter (searchOf d)) := rfl

theorem foldCats_cons (fetch : Str → List Str) (idx : Index) (d : Cat) (rest : List Cat) :
    foldCats fetch idx (d :: rest) =
      match processCat fetch idx d with
      | .error e => .error e
      | .ok idx' => foldCats fetch idx' rest := rfl

theorem build_hist_error {fetch : Str → List Str} {e : BuildErr}
    (h1 : processCat fetch [] Cat.historical = .error e) :
    build_kl_file_index fetch = .error e := by
  show foldCats fetch [] [Cat.historical, Cat.recent] = _
  rw [foldCats_cons, h1]

theorem build_after_hist {fetch : Str → List Str} {i1 : Index}
    (h1 : processCat fetch [] Cat.historical = .ok i1) :
    build_kl_file_index fetch = processCat fetch i1 Cat.recent := by
  show foldCats fetch [] [Cat.historical, Cat.recent] = _
  rw [foldCats_cons, h1]
  show foldCats fetch i1 [Cat.recent] = _
  rw [foldCats_cons]
  rcases processCat fetch i1 Cat.recent with e | i2 <;> rfl

/-! ## The claims -/

/-- C1: the spec's algorithm says each category's own listing page is
fetched (historical links from the historical directory, recent links
from the recent directory) and every matching anchor is recorded under
its (station id, category) pair.  The code instead fetches the HISTORICAL
directory on both iterations of the category loop, so a recent page that
does contain a matching recent anchor (station 00044) contributes
nothing: the built index has no entry for station 44 and carries only
historical entries.  This contradicts the function's own docstring, which
promises a mapping "for the subdirectories historical and recent". -/
theorem c1_recent_directory_never_fetched :
    c1Fetch recentUrl = [aktHref44] ∧
    searchOf Cat.recent aktHref44 = true ∧
    build_kl_file_index c1Fetch = .ok c1Idx ∧
    lookupIndex c1Idx 44 = none ∧
    onlyHist c1Idx := by
  refine ⟨by rfl, by rfl, by rfl, by rfl, ?_⟩
  intro e he p hp
  simp only [c1Idx, List.mem_singleton] at he
  subst he
  simp only [List.mem_singleton] at hp
  subst hp
  rfl

/-- C2 counterexample: the claim promises that a page containing a
recent-pattern anchor makes the builder raise the tuple-unpacking error.
On the page `c2page`, whose first anchor contains the historical pattern
only at a nonzero offset (so the anchor filter's `re.search` accepts it
but the loop body's `re.match` returns `None`), the builder raises the
attribute error `matchNone` instead. -/
theorem c2_counterexample :
    (c2Fetch histUrl).any (searchOf Cat.recent) = true ∧
    build_kl_file_index c2Fetch = .error .matchNone ∧
    build_kl_file_index c2Fetch ≠ .error .unpackMismatch := by
  refine ⟨by rfl, by rfl, ?_⟩
  intro h
  rw [show build_kl_file_index c2Fetch = .error .matchNone from rfl] at h
  simp at h

/-- C2 (amended): whatever the fetched listing page holds, an index the
builder RETURNS carries only historical entries; if the page contains an
anchor matching the recent pattern the builder raises some error instead
of returning, and that error is the tuple-unpacking error provided every
anchor that matches a pattern by `re.search` also matches it at the start
of its href (as on real listing pages). -/
theorem c2_index_never_has_recent (fetch : Str → List Str) :
    (∀ idx, build_kl_file_index fetch = .ok idx → onlyHist idx) ∧
    ((fetch histUrl).any (searchOf Cat.recent) = true →
      ∃ e, build_kl_file_index fetch = .error e) ∧
    ((fetch histUrl).any (searchOf Cat.recent) = true →
      (∀ href ∈ fetch histUrl,
        (searchOf Cat.historical href = true → (matchGroups Cat.historical href).isSome) ∧
        (searchOf Cat.recent href = true → (matchGroups Cat.recent href).isSome)) →
      build_kl_file_index fetch = .error .unpackMismatch) := by
  refine ⟨?_, ?_, ?_⟩
  · intro idx h
    rcases h1 : processCat fetch [] Cat.historical with e1 | i1
    · rw [build_hist_error h1] at h; exact absurd h (by simp)
    · rw [build_after_hist h1] at h
      rw [processCat_def] at h
      rcases hf : (fetch histUrl).filter (searchOf Cat.recent) with _ | ⟨h0, t0⟩
      · rw [hf, foldLinks_nil] at h
        simp only [Except.ok.injEq] at h
        subst h
        rw [processCat_def] at h1
        exact foldLinks_hist_onlyHist histUrl h1 (by intro e he p hp; simp at he)
      · rw [hf] at h
        obtain ⟨e, he⟩ := foldLinks_recent_cons histUrl i1 h0 t0
        rw [he] at h; exact absurd h (by simp)
  · intro hany
    obtain ⟨x, hx, hsx⟩ := List.any_eq_true.mp hany
    have hxmem : x ∈ (fetch histUrl).filter (searchOf Cat.recent) :=
      List.mem_filter.mpr ⟨hx, hsx⟩
    rcases h1 : processCat fetch [] Cat.historical with e1 | i1
    · exact ⟨e1, build_hist_error h1⟩
    · rcases hf : (fetch histUrl).filter (searchOf Cat.recent) with _ | ⟨h0, t0⟩
      · rw [hf] at hxmem; simp at hxmem
      · obtain ⟨e, he⟩ := foldLinks_recent_cons histUrl i1 h0 t0
        exact ⟨e, by rw [build_after_hist h1, processCat_def, hf]; exact he⟩
  · intro hany hall
    obtain ⟨x, hx, hsx⟩ := List.any_eq_true.mp hany
    have hxmem : x ∈ (fetch histUrl).filter (searchOf Cat.recent) :=
      List.mem_filter.mpr ⟨hx, hsx⟩
    have hhist : ∀ l ∈ (fetch histUrl).filter (searchOf Cat.historical),
        (matchGroups Cat.historical l).isSome := by
      intro l hl
      obtain ⟨hmem, hs⟩ := List.mem_filter.mp hl
      exact (hall l hmem).1 hs
    obtain ⟨i1, h1⟩ := foldLinks_hist_total histUrl [] hhist
    have h1' : processCat fetch [] Cat.historical = .ok i1 := by
      rw [processCat_def]; exact h1
    rw [build_after_hist h1', processCat_def]
    rcases hf : (fetch histUrl).filter (searchOf Cat.recent) with _ | ⟨h0, t0⟩
    · rw [hf] at hxmem; simp at hxmem
    · have hh0 : h0 ∈ (fetch histUrl).filter (searchOf Cat.recent) := by
        rw [hf]; simp
      obtain ⟨hmem0, hs0⟩ := List.mem_filter.mp hh0
      have hpl : processLink Cat.recent histUrl i1 h0 = .error .unpackMismatch :=
        processLink_recent_isSome histUrl i1 ((hall h0 hmem0).2 hs0)
      rw [foldLinks_cons, hpl]

/-- C2 witness for the amended claim: on the concrete page `c2page`,
which contains a recent-pattern anchor, the builder raises an error
instead of returning. -/
theorem c2_witness : ∃ e, build_kl_file_index c2Fetch = .error e :=
  (c2_index_never_has_recent c2Fetch).2.1 (by rfl)

/-- C3: on a mocked listing page holding exactly the historical link for
station "00011" with dates 19500101 to 20181231, the builder returns the
index mapping the integer 11 to the single historical entry whose URL is
the listing URL concatenated with the href. -/
theorem c3_round_trip_single_historical_link :
    build_kl_file_index (fun _ => [histHref11]) =
      .ok [(11, [(Cat.historical, histUrl ++ histHref11)])] := by rfl

/-- C8: the memoized builder: a second call returns exactly the mapping
the first call returned, whatever the listing pages serve at the time of
the second call. -/
theorem c8_second_call_returns_cached_index (f1 f2 : Str → List Str)
    (idx : Index) (c : Option Index)
    (h : build_cached none f1 = .ok (idx, c)) :
    build_cached c f2 = .ok (idx, c) := by
  unfold build_cached at h
  rcases hb : build_kl_file_index f1 with e | i
  · rw [hb] at h; exact absurd h (by simp)
  · rw [hb] at h
    simp only [Except.ok.injEq, Prod.mk.injEq] at h
    obtain ⟨h1, h2⟩ := h
    subst h1
    subst h2
    rfl

/-- C8 witness: the first call builds from a page with one historical
link; the second call sees empty listing pages yet returns the first
call's index unchanged. -/
theorem c8_witness :
    build_cached (some [(11, [(Cat.historical, histUrl ++ histHref11)])]) (fun _ => []) =
      .ok ([(11, [(Cat.historical, histUrl ++ histHref11)])],
           some [(11, [(Cat.historical, histUrl ++ histHref11)])]) :=
  c8_second_call_returns_cached_index (fun _ => [histHref11]) (fun _ => [])
    [(11, [(Cat.historical, histUrl ++ histHref11)])]
    (some [(11, [(Cat.historical, histUrl ++ histHref11)])]) (by rfl)

/-! ## Lemmas about the filesystem and downloads -/

theorem fsRead_fsWrite (fs : FS) (p : Str) (b : Bytes) (q : Str) :
    fsRead (fsWrite fs p b) q = if p = q then some b else fsRead fs q := by
  induction fs with
  | nil => rfl
  | cons head tail ih =>
    obtain ⟨k, v⟩ := head
    by_cases hk : k = p
    · subst hk
      simp only [fsWrite, if_pos rfl, fsRead]
      by_cases hq : k = q <;> simp [hq]
    · simp only [fsWrite, if_neg hk, fsRead]
      rw [ih]
      by_cases hq : k = q <;> by_cases hp : p = q
      · exact absurd (hq.trans hp.symm) hk
      · simp [hq, hp]
      · simp [hq, hp]
      · simp [hq, hp]

theorem fsRead_fsWrite_self (fs : FS) (p : Str) (b : Bytes) :
    fsRead (fsWrite fs p b) p = some b := by
  rw [fsRead_fsWrite, if_pos rfl]

theorem fsRead_isSome_fsWrite {fs : FS} {q : Str} (p : Str) (b : Bytes)
    (h : (fsRead fs q).isSome) : (fsRead (fsWrite fs p b) q).isSome := by
  rw [fsRead_fsWrite]
  by_cases hp : p = q
  · simp [hp]
  · simpa [hp] using h

theorem download_file_err {http : Str → Nat × Bytes} {url : Str} (outfile : Str) (fs : FS)
    (h : 400 ≤ (http url).1 ∧ (http url).1 < 600) :
    download_file http url outfile fs = (.error .downloadFailed, fs) := by
  simp only [download_file]
  rw [if_pos h]

theorem download_file_ok {http : Str → Nat × Bytes} {url : Str} (outfile : Str) (fs : FS)
    (h : ¬(400 ≤ (http url).1 ∧ (http url).1 < 600)) :
    download_file http url outfile fs = (.ok (), fsWrite fs outfile (http url).2) := by
  simp only [download_file]
  rw [if_neg h]

theorem dl_loop_cons (http : Str → Nat × Bytes) (outdir : Str) (fs : FS)
    (d : Cat) (u : Str) (rest : List (Cat × Str)) :
    dl_loop http outdir fs ((d, u) :: rest) =
      match download_file http u (pathJoin outdir (basename u)) fs with
      | (.error e, fs') => (.error e, fs')
      | (.ok _, fs') =>
        match dl_loop http outdir fs' rest with
        | (.ok files, fs'') => (.ok (pathJoin outdir (basename u) :: files), fs'')
        | (.error e, fs'') => (.error e, fs'') := rfl

theorem dl_loop_ok (http : Str → Nat × Bytes) (outdir : Str) :
    ∀ (inner : List (Cat × Str)) (fs : FS),
      (∀ p ∈ inner, ¬(400 ≤ (http p.2).1 ∧ (http p.2).1 < 600)) →
      ∃ fs',
        dl_loop http outdir fs inner =
          (.ok (inner.map (fun p => pathJoin outdir (basename p.2))), fs') ∧
        (∀ q, (fsRead fs q).isSome → (fsRead fs' q).isSome) ∧
        (∀ p ∈ inner, (fsRead fs' (pathJoin outdir (basename p.2))).isSome) := by
  intro inner
  induction inner with
  | nil =>
    intro fs _
    exact ⟨fs, rfl, fun q h => h, by intro p hp; simp at hp⟩
  | cons head tail ih =>
    intro fs hall
    obtain ⟨d, u⟩ := head
    have hu : ¬(400 ≤ (http u).1 ∧ (http u).1 < 600) := hall (d, u) (by simp)
    obtain ⟨fs', hloop, hmono, hpres⟩ :=
      ih (fsWrite fs (pathJoin outdir (basename u)) (http u).2)
        (fun p hp => hall p (List.mem_cons_of_mem _ hp))
    refine ⟨fs', ?_, ?_, ?_⟩
    · simp only [dl_loop_cons, download_file_ok (pathJoin outdir (basename u)) fs hu, hloop,
        List.map_cons]
    · intro q h
      exact hmono q (fsRead_isSome_fsWrite _ _ h)
    · intro p hp
      rcases List.mem_cons.mp hp with hp | hp
      · subst hp
        refine hmono _ ?_
        rw [fsRead_fsWrite_self]
        rfl
      · exact hpres p hp

/-- C4: an identifier absent from the index makes the station downloader
raise the lookup error and leave the filesystem exactly as it was (no
file created, none changed). -/
theorem c4_unknown_station_raises_and_writes_nothing
    (index : Index) (http : Str → Nat × Bytes) (station_id : Nat) (outdir : Str) (fs : FS)
    (h : lookupIndex index station_id = none) :
    download_station_kl index http station_id outdir fs = (.error .stationNotFound, fs) := by
  unfold download_station_kl
  rw [h]

/-- C4 witness: station 11 in an empty index. -/
theorem c4_witness :
    download_station_kl [] http200 11 outDirW [] = (.error .stationNotFound, []) :=
  c4_unknown_station_raises_and_writes_nothing [] http200 11 outDirW [] rfl

/-- C5: the file downloader raises the download-failure error exactly
when the response status is in the raising range 400..599; in that case
the filesystem is untouched (the output path is neither created nor
truncated), and on a success status the full response body is written to
the output path, creating or overwriting it. -/
theorem c5_download_error_iff_bad_status (http : Str → Nat × Bytes)
    (url outfile : Str) (fs : FS) :
    ((download_file http url outfile fs).1 = .error .downloadFailed ↔
      400 ≤ (http url).1 ∧ (http url).1 < 600) ∧
    (400 ≤ (http url).1 ∧ (http url).1 < 600 →
      download_file http url outfile fs = (.error .downloadFailed, fs)) ∧
    (¬(400 ≤ (http url).1 ∧ (http url).1 < 600) →
      download_file http url outfile fs = (.ok (), fsWrite fs outfile (http url).2) ∧
      fsRead (fsWrite fs outfile (http url).2) outfile = some (http url).2) := by
  by_cases h : 400 ≤ (http url).1 ∧ (http url).1 < 600
  · refine ⟨?_, fun _ => download_file_err outfile fs h, fun hc => absurd h hc⟩
    rw [download_file_err outfile fs h]
    simp [h]
  · refine ⟨?_, fun hc => absurd hc h,
      fun _ => ⟨download_file_ok outfile fs h, fsRead_fsWrite_self fs outfile (http url).2⟩⟩
    rw [download_file_ok outfile fs h]
    simp [h]

/-- C5 witness: a 404 response leaves the filesystem empty; a 200
response writes the body under the output path. -/
theorem c5_witness :
    download_file http404 recentUrl outDirW [] = (.error .downloadFailed, []) ∧
    download_file http200 recentUrl outDirW [] =
      (.ok (), fsWrite [] outDirW (http200 recentUrl).2) :=
  ⟨(c5_download_error_iff_bad_status http404 recentUrl outDirW []).2.1 (by decide),
   ((c5_download_error_iff_bad_status http200 recentUrl outDirW []).2.2 (by decide)).1⟩

/-- C9: a station present in the index gets one download per category in
its entry: the returned path list is the per-category list of output
paths (output directory joined with the URL's basename), its length is
the number of categories, and each path exists on the filesystem
afterwards.  The downloads are assumed to answer with success statuses,
the behavior the claim describes; a failing fetch raises instead. -/
theorem c9_downloads_one_file_per_category
    (index : Index) (http : Str → Nat × Bytes) (station_id : Nat) (outdir : Str)
    (fs : FS) (inner : Inner)
    (hfound : lookupIndex index station_id = some inner)
    (hok : ∀ p ∈ inner, ¬(400 ≤ (http p.2).1 ∧ (http p.2).1 < 600)) :
    ∃ fs',
      download_station_kl index http station_id outdir fs =
        (.ok (inner.map (fun p => pathJoin outdir (basename p.2))), fs') ∧
      (inner.map (fun p => pathJoin outdir (basename p.2))).length = inner.length ∧
      ∀ p ∈ inner, (fsRead fs' (pathJoin outdir (basename p.2))).isSome := by
  obtain ⟨fs', h1, _, h3⟩ := dl_loop_ok http outdir inner fs hok
  refine ⟨fs', ?_, by simp, h3⟩
  unfold download_station_kl
  rw [hfound]
  exact h1

/-- C9 witness: station 11 with both categories in the index, a mocked
success network: two files, the two expected paths. -/
theorem c9_witness :
    ∃ fs',
      download_station_kl idx9 http200 11 outDirW [] =
        (.ok (inner9.map (fun p => pathJoin outDirW (basename p.2))), fs') ∧
      (inner9.map (fun p => pathJoin outDirW (basename p.2))).length = inner9.length ∧
      ∀ p ∈ inner9, (fsRead fs' (pathJoin outDirW (basename p.2))).isSome :=
  c9_downloads_one_file_per_category idx9 http200 11 outDirW [] inner9 (by rfl) (by decide)

theorem bulk_loop_cons (http : Str → Nat × Bytes) (outdir : Str) (fs : FS)
    (calls prog : Nat) (u : Str) (rest : List Str) :
    bulk_loop http outdir fs calls prog (u :: rest) =
      match download_file http u (pathJoin outdir (basename u)) fs with
      | (.error e, fs') => (.error e, calls + 1, prog, fs')
      | (.ok _, fs') => bulk_loop http outdir fs' (calls + 1) (prog + 1) rest := rfl

theorem bulk_loop_ok (http : Str → Nat × Bytes) (outdir : Str) :
    ∀ (urls : List Str) (fs : FS) (calls prog : Nat),
      (∀ u ∈ urls, ¬(400 ≤ (http u).1 ∧ (http u).1 < 600)) →
      ∃ fs', bulk_loop http outdir fs calls prog urls =
        (.ok (), calls + urls.length, prog + urls.length, fs') := by
  intro urls
  induction urls with
  | nil => intro fs calls prog _; exact ⟨fs, rfl⟩
  | cons u rest ih =>
    intro fs calls prog hall
    have hu : ¬(400 ≤ (http u).1 ∧ (http u).1 < 600) := hall u (by simp)
    obtain ⟨fs', h⟩ :=
      ih (fsWrite fs (pathJoin outdir (basename u)) (http u).2) (calls + 1) (prog + 1)
        (fun x hx => hall x (List.mem_cons_of_mem _ hx))
    refine ⟨fs', ?_⟩
    simp only [bulk_loop_cons, download_file_ok (pathJoin outdir (basename u)) fs hu, h,
      List.length_cons]
    have e1 : calls + 1 + rest.length = calls + (rest.length + 1) := by omega
    have e2 : prog + 1 + rest.length = prog + (rest.length + 1) := by omega
    rw [e1, e2]

/-- C10: with a worker pool of width one, the bulk downloader performs
exactly one download call per URL of the flattened index and reports
progress once per URL: both counters end at the length of the flattened
URL list.  Downloads are assumed to answer with success statuses, the
behavior the claim describes; a failing fetch raises out of the pool. -/
theorem c10_bulk_pool1_calls_and_progress
    (index : Index) (http : Str → Nat × Bytes) (outdir : Str) (fs : FS)
    (hok : ∀ u ∈ flatten_urls index, ¬(400 ≤ (http u).1 ∧ (http u).1 < 600)) :
    ∃ fs', download_all_kl_files index http outdir fs =
      (.ok (), (flatten_urls index).length, (flatten_urls index).length, fs') := by
  obtain ⟨fs', h⟩ := bulk_loop_ok http outdir (flatten_urls index) fs 0 0 hok
  exact ⟨fs', by simpa using h⟩

/-- C10 witness: an index flattening to two URLs: two download calls, two
progress reports. -/
theorem c10_witness :
    ∃ fs', download_all_kl_files idx9 http200 outDirW [] =
      (.ok (), (flatten_urls idx9).length, (flatten_urls idx9).length, fs') :=
  c10_bulk_pool1_calls_and_progress idx9 http200 outDirW [] (by decide)

/-! ## Lemmas about the record parser -/

theorem mem_removeIdx {α : Type} : ∀ {l : List α} {n : Nat} {a : α},
    a ∈ removeIdx l n → a ∈ l := by
  intro l
  induction l with
  | nil => intro n a h; simp [removeIdx] at h
  | cons x xs ih =>
    intro n a h
    cases n with
    | zero => exact List.mem_cons_of_mem _ h
    | succ m =>
      rcases List.mem_cons.mp h with h | h
      · simp [h]
      · exact List.mem_cons_of_mem _ (ih h)

theorem mem_cellsOfFields {di : Nat} : ∀ {flds : List Str} {i : Nat} {c : Cell},
    c ∈ cellsOfFields di i flds → ∃ s, c = toDateCell s ∨ c = toCell s := by
  intro flds
  induction flds with
  | nil => intro i c h; simp [cellsOfFields] at h
  | cons s rest ih =>
    intro i c h
    rcases List.mem_cons.mp h with h | h
    · refine ⟨s, ?_⟩
      by_cases hd : i = di
      · rw [if_pos hd] at h; exact Or.inl h
      · rw [if_neg hd] at h; exact Or.inr h
    · exact ih h

theorem toCell_ne_na_str (s : Str) : toCell s ≠ Cell.str litNa := by
  unfold toCell
  by_cases h : s ∈ NA_VALUES
  · rw [if_pos h]; simp
  · rw [if_neg h]
    intro hc
    injection hc with hs
    subst hs
    exact h (by simp [NA_VALUES])

theorem toDateCell_ne_str (s x : Str) : toDateCell s ≠ Cell.str x := by
  unfold toDateCell
  by_cases h : s ∈ NA_VALUES <;> simp [h]

/-- C6: an archive with no member whose name starts with `produkt_`
makes the record parser raise the archive-format error. -/
theorem c6_no_produkt_member_raises (archive : List ZipEntry)
    (h : ∀ e ∈ archive, ¬(litProdukt.isPrefixOf e.name = true)) :
    read_dwd_kl_file archive = .error .noDataFile := by
  unfold read_dwd_kl_file
  rw [List.find?_eq_none.mpr h]

/-- C6 witness: an archive holding only a metadata member. -/
theorem c6_witness : read_dwd_kl_file arch6 = .error .noDataFile :=
  c6_no_produkt_member_raises arch6 (by decide)

/-- C7: in every table the record parser returns, no cell of any row is
the literal text `-999`: the sentinel is mapped to the missing marker by
the cell parsers (both the plain one and the date one send `-999` to
`na`), in whatever column it occurs. -/
theorem c7_sentinel_normalized_to_absent (archive : List ZipEntry) (t : Table)
    (h : read_dwd_kl_file archive = .ok t) :
    (∀ row ∈ t.rows, ∀ c ∈ row, c ≠ Cell.str litNa) ∧
    toCell litNa = Cell.na ∧ toDateCell litNa = Cell.na := by
  refine ⟨?_, by rfl, by rfl⟩
  unfold read_dwd_kl_file at h
  split at h
  · exact absurd h (by simp)
  · split at h
    · exact absurd h (by simp)
    · split at h
      · exact absurd h (by simp)
      · split at h
        · exact absurd h (by simp)
        · simp only [Except.ok.injEq] at h
          subst h
          intro row hrow c hc
          simp only [List.mem_map] at hrow
          obtain ⟨r, ⟨l, _, hr⟩, hrm⟩ := hrow
          subst hr
          subst hrm
          obtain ⟨s, hs | hs⟩ := mem_cellsOfFields (mem_removeIdx hc)
          · subst hs; exact toDateCell_ne_str s litNa
          · subst hs; exact toCell_ne_na_str s

/-- C7 witness: the archive `arch7`, whose data member holds `-999` in
the date column and in a measurement column, parses to `t7`; no cell of
`t7` is the literal `-999`. -/
theorem c7_witness :
    (∀ row ∈ t7.rows, ∀ c ∈ row, c ≠ Cell.str litNa) ∧
    toCell litNa = Cell.na ∧ toDateCell litNa = Cell.na :=
  c7_sentinel_normalized_to_absent arch7 t7 (by rfl)

end Dwd
